import Mathlib

/-!
# Verification of the LZMA2 decoder (`src/liblzma/lzma/lzma2_decoder.c`)

This development gives a shallow embedding of the chunk-framing state machine
`lzma2_decode` and of the properties decoder `lzma_lzma2_props_decode`, and
proves/refutes the specification claims about them.

Conventions:
* Bytes are `Nat` values `< 256`; machine arithmetic in the source never
  overflows on the paths modelled here (the 21-bit and 16-bit size fields fit
  easily in `size_t`), so plain `Nat` arithmetic is faithful.
* Return codes (`lzma_ret`): `Ret.ok` is `LZMA_OK` (the spec's `Continue`),
  `Ret.streamEnd` is `LZMA_STREAM_END` (`StreamEnded`), `Ret.dataError` is
  `LZMA_DATA_ERROR` (`FormatError`), `Ret.optionsError` is
  `LZMA_OPTIONS_ERROR` (`OptionsError`), `Ret.progError` is
  `LZMA_PROG_ERROR` (`ProgrammingError`).
* The input buffer `in[*in_pos .. in_size)` is modelled as the list of not yet
  consumed bytes; a call returns how many bytes it consumed (the advance of
  `*in_pos`).
* The inner LZMA decoder (`coder->lzma`, an `lzma_lz_decoder` function table),
  the dictionary operations `dict_reset`/`dict_write` (lz_decoder.h) and
  `lzma_lzma_lclppb_decode` (lzma_decoder.c) are not part of the source under
  verification; they are external collaborators and are modelled abstractly
  (`Env`) resp. from the spec (`dict_reset`, `dict_write`).
-/

deriving instance DecidableEq for Except

namespace Lzma2

/-- Return codes, from `lzma_ret` (base.h). Only the constructors that the
decoder under verification can produce are ever used. -/
inductive Ret where
  | ok
  | streamEnd
  | dataError
  | optionsError
  | memError
  | progError
deriving DecidableEq, Repr

/-- The `enum sequence` of `lzma_coder_s`: `control` is `SEQ_CONTROL`,
`uncompressed1/2` are `SEQ_UNCOMPRESSED_1/2`, `compressed0/1` are
`SEQ_COMPRESSED_0/1`, `properties` is `SEQ_PROPERTIES`, `lzma` is `SEQ_LZMA`
(the spec's `RunCompressed`), `copy` is `SEQ_COPY` (the spec's `RunRawCopy`). -/
inductive Seq where
  | control
  | uncompressed1
  | uncompressed2
  | compressed0
  | compressed1
  | properties
  | lzma
  | copy
deriving DecidableEq, Repr

/-- Modelled from the spec: the dictionary (`lzma_dict`, lz_decoder.h, not in
src/) is a single-writer sliding window of produced output. `buf` records every
byte ever written to it (the produced output), `resets` counts the
`dict_reset` calls (so that resets are observable in the model). -/
structure Dict where
  buf : List Nat
  resets : Nat
deriving DecidableEq, Repr

/-- Modelled from the spec: `dict_reset` (lz_decoder.h, not in src/)
reinitialises the sliding window. Already-produced output is not retracted;
the reset itself is recorded. -/
def dict_reset (d : Dict) : Dict :=
  ⟨d.buf, d.resets + 1⟩

/-- Result of `dict_write`: the new dictionary, the number of input bytes
copied (the advance of `*in_pos`), and the new value of `*left`
(`coder->compressed_size`). -/
structure WriteResult where
  dict : Dict
  copied : Nat
  left : Nat
deriving DecidableEq, Repr

/-- Modelled from the spec: `dict_write` (lz_decoder.h, not in src/) "copies
bytes directly from input into the dictionary's sliding window (bounded by
both available input and `compressed_remaining`), decrementing
`compressed_remaining` by bytes copied" (spec §4.1, RunRawCopy). -/
def dict_write (d : Dict) (inp : List Nat) (left : Nat) : WriteResult :=
  let copy_size := min inp.length left
  ⟨⟨d.buf ++ inp.take copy_size, d.resets⟩, copy_size, left - copy_size⟩

/-- Result of one call of the inner decoder's `code` function
(`coder->lzma.code`): new inner state, new dictionary, number of input bytes
consumed, and its return code. -/
structure CodeResult (σ : Type) where
  st : σ
  dict : Dict
  used : Nat
  ret : Ret
deriving DecidableEq, Repr

/-- The external collaborators of the framing machine (spec §4.3): the inner
LZMA decoder's capability table (`lzma_lz_decoder`: `reset`,
`set_uncompressed`, `code`) over an abstract inner-state type `σ`, and
`lzma_lzma_lclppb_decode` (lzma_decoder.c, not in src/) over an abstract
options type `Opt` (`none` models the failing return). All are modelled
abstractly; theorems state the contract they are assumed to satisfy. -/
structure Env (σ Opt : Type) where
  reset : σ → Opt → σ
  set_uncompressed : σ → Nat → σ
  code : σ → Dict → List Nat → CodeResult σ
  lclppb_decode : Opt → Nat → Option Opt

/-- The decoder state `lzma_coder_s` of lzma2_decoder.c. `lzma` is the inner
decoder instance (`coder->lzma.coder`), `options` is `coder->options`. The
spec calls `sequence` the `phase`, `uncompressed_size`/`compressed_size` the
`uncompressed_remaining`/`compressed_remaining`, and
`need_properties`/`need_dictionary_reset` the
`needs_properties`/`needs_dictionary_reset` flags. -/
structure Coder (σ Opt : Type) where
  sequence : Seq
  next_sequence : Seq
  lzma : σ
  uncompressed_size : Nat
  compressed_size : Nat
  need_properties : Bool
  need_dictionary_reset : Bool
  options : Opt
deriving DecidableEq, Repr

/-- Outcome of one iteration of the `while` loop of `lzma2_decode`:
`done c d n r` means the iteration executed `return r` after consuming `n`
bytes, leaving coder `c` and dictionary `d`; `next c d n` means the iteration
fell through to the next loop test (`break` in the `switch`). The case of the
loop condition failing (no input left and not in `SEQ_LZMA`) is represented as
`done c d 0 .ok`, matching the `return LZMA_OK` after the loop. -/
inductive Step1Out (σ Opt : Type) where
  | done : Coder σ Opt → Dict → Nat → Ret → Step1Out σ Opt
  | next : Coder σ Opt → Dict → Nat → Step1Out σ Opt
deriving DecidableEq, Repr

/-- The coder state after one loop iteration. -/
def Step1Out.coder : Step1Out σ Opt → Coder σ Opt
  | .done c _ _ _ => c
  | .next c _ _ => c

/-- One iteration of the `while` loop of `lzma2_decode` (lzma2_decoder.c,
lines 71-219), i.e. one execution of the `switch (coder->sequence)`. The C
fallthroughs (`case 3` into `case 2` of the reset-level switch, `case 1` into
`case 2` of the raw-chunk switch) are written as ordered checks. `inp` is the
not yet consumed input. -/
def step1 (env : Env σ Opt) (c : Coder σ Opt) (d : Dict) (inp : List Nat) :
    Step1Out σ Opt :=
  match c.sequence, inp with
  | .lzma, inp =>
      -- case SEQ_LZMA: runs even when no input is left.
      let r := env.code c.lzma d inp
      let c1 := { c with lzma := r.st }
      if r.used > c.compressed_size then
        .done c1 r.dict r.used .dataError
      else
        let c2 := { c1 with compressed_size := c.compressed_size - r.used }
        if r.ret ≠ .streamEnd then
          .done c2 r.dict r.used r.ret
        else if c2.compressed_size ≠ 0 then
          .done c2 r.dict r.used .dataError
        else
          .next { c2 with sequence := .control } r.dict r.used
  | _, [] =>
      -- while-loop condition fails: return LZMA_OK.
      .done c d 0 .ok
  | .control, b :: _ =>
      if b &&& 0x80 ≠ 0 then
        -- Compressed chunk: record the top five bits of the uncompressed
        -- size and advance to SEQ_UNCOMPRESSED_1 before the reset switch.
        let c0 := { c with
          uncompressed_size := (b &&& 0x1F) <<< 16
          sequence := Seq.uncompressed1 }
        let lvl := (b >>> 5) &&& 3
        if 2 ≤ lvl then
          -- case 3 resets the dictionary, then falls through to case 2.
          let d1 := if lvl = 3 then dict_reset d else d
          let c1 := if lvl = 3 then { c0 with need_dictionary_reset := false }
                    else c0
          if c1.need_dictionary_reset then
            .done c1 d1 1 .dataError
          else
            .next { c1 with
              need_properties := false
              next_sequence := Seq.properties } d1 1
        else if lvl = 1 then
          if c.need_properties then
            .done c0 d 1 .dataError
          else
            .next { c0 with
              lzma := env.reset c.lzma c.options
              next_sequence := Seq.lzma } d 1
        else
          -- lvl = 0
          if c.need_properties then
            .done c0 d 1 .dataError
          else
            .next { c0 with next_sequence := Seq.lzma } d 1
      else if b = 0 then
        -- End of payload marker.
        .done c d 1 .streamEnd
      else if b = 1 ∨ b = 2 then
        -- case 1 resets the dictionary, then falls through to case 2.
        let d1 := if b = 1 then dict_reset d else d
        let c1 := if b = 1 then { c with need_dictionary_reset := false }
                  else c
        if c1.need_dictionary_reset then
          .done c1 d1 1 .dataError
        else
          .next { c1 with
            sequence := Seq.compressed0
            next_sequence := Seq.copy } d1 1
      else
        .done c d 1 .dataError
  | .uncompressed1, b :: _ =>
      .next { c with
        uncompressed_size := c.uncompressed_size + (b <<< 8)
        sequence := Seq.uncompressed2 } d 1
  | .uncompressed2, b :: _ =>
      let u := c.uncompressed_size + b + 1
      .next { c with
        uncompressed_size := u
        sequence := Seq.compressed0
        lzma := env.set_uncompressed c.lzma u } d 1
  | .compressed0, b :: _ =>
      .next { c with
        compressed_size := b <<< 8
        sequence := Seq.compressed1 } d 1
  | .compressed1, b :: _ =>
      .next { c with
        compressed_size := c.compressed_size + b + 1
        sequence := c.next_sequence } d 1
  | .properties, b :: _ =>
      match env.lclppb_decode c.options b with
      | none => .done c d 1 .dataError
      | some o =>
          .next { c with
            options := o
            lzma := env.reset c.lzma o
            sequence := Seq.lzma } d 1
  | .copy, b :: rest =>
      -- case SEQ_COPY: dict_write gets the whole remaining buffer.
      let w := dict_write d (b :: rest) c.compressed_size
      let c1 := { c with compressed_size := w.left }
      if w.left ≠ 0 then
        .done c1 w.dict w.copied .ok
      else
        .next { c1 with sequence := Seq.control } w.dict w.copied

/-- Result of a call of `lzma2_decode`: final coder, final dictionary, number
of input bytes consumed (advance of `*in_pos`) and the returned `lzma_ret`. -/
structure DecodeResult (σ Opt : Type) where
  coder : Coder σ Opt
  dict : Dict
  used : Nat
  ret : Ret
deriving DecidableEq, Repr

/-- Termination rank of a phase: every loop iteration strictly decreases
`3 * inp.length + seqRank sequence` (proved in `step1_next_measure`). -/
def seqRank : Seq → Nat
  | .lzma => 2
  | .copy => 1
  | _ => 0

/-- The `while` loop of `lzma2_decode`, with explicit fuel. The fuel
`3 * inp.length + 3` used by `lzma2_decode` always suffices
(`lzma2_loop_fuel`), so the `Ret.progError` default is unreachable there. -/
def lzma2_loop (env : Env σ Opt) :
    Nat → Coder σ Opt → Dict → List Nat → DecodeResult σ Opt
  | 0, c, d, _ => ⟨c, d, 0, .progError⟩
  | fuel + 1, c, d, inp =>
      match step1 env c d inp with
      | .done c' d' n r => ⟨c', d', n, r⟩
      | .next c' d' n =>
          let t := lzma2_loop env fuel c' d' (inp.drop n)
          ⟨t.coder, t.dict, n + t.used, t.ret⟩

/-- The framing step function `lzma2_decode` (lzma2_decoder.c, lines 63-222):
the spec's `step(state, dictionary, input, input_cursor, input_limit)`. -/
def lzma2_decode (env : Env σ Opt) (c : Coder σ Opt) (d : Dict)
    (inp : List Nat) : DecodeResult σ Opt :=
  lzma2_loop env (3 * inp.length + 3) c d inp

/-- Sequence of phases in which the successive loop iterations of one
`lzma2_decode` call start (the trace of `switch (coder->sequence)`
dispatches). A properties byte can only be decoded during an iteration whose
entry in this trace is `Seq.properties`. -/
def seqTrace (env : Env σ Opt) :
    Nat → Coder σ Opt → Dict → List Nat → List Seq
  | 0, _, _, _ => []
  | fuel + 1, c, d, inp =>
      if inp = [] ∧ c.sequence ≠ Seq.lzma then []
      else
        match step1 env c d inp with
        | .done _ _ _ _ => [c.sequence]
        | .next c' d' n => c.sequence :: seqTrace env fuel c' d' (inp.drop n)

/-- Trace of phases of one `lzma2_decode` call (same fuel as the call). -/
def lzma2_trace (env : Env σ Opt) (c : Coder σ Opt) (d : Dict)
    (inp : List Nat) : List Seq :=
  seqTrace env (3 * inp.length + 3) c d inp

/-- The value `UINT32_MAX`. -/
def UINT32_MAX : Nat := 4294967295

/-- The relevant fields of `lzma_options_lzma` as set by
`lzma_lzma2_props_decode`: the derived dictionary size and the (absent)
preset dictionary. -/
structure OptionsLzma where
  dictionary_size : Nat
  preset_dictionary : Option (List Nat)
  preset_dictionary_size : Nat
deriving DecidableEq, Repr

/-- The properties decoder `lzma_lzma2_props_decode` (lzma2_decoder.c, lines
285-318). Allocation (and thus `LZMA_MEM_ERROR`) is not modelled; every error
is `LZMA_OPTIONS_ERROR`. -/
def lzma_lzma2_props_decode (props : List Nat) : Except Ret OptionsLzma :=
  if props.length ≠ 1 then .error .optionsError
  else
    let b := props.headD 0
    if b &&& 0xC0 ≠ 0 then .error .optionsError
    else if b > 40 then .error .optionsError
    else
      .ok { dictionary_size :=
              if b = 40 then UINT32_MAX
              else (2 ||| (b &&& 1)) <<< (b / 2 + 11)
            preset_dictionary := none
            preset_dictionary_size := 0 }

/-- A concrete trivial environment (used to instantiate the abstract
collaborators in closed witness statements): inner state and options are
`Unit`, the inner decoder consumes nothing and reports `LZMA_STREAM_END`,
and `lclppb` decoding always fails. -/
def trivEnv : Env Unit Unit :=
  { reset := fun _ _ => ()
    set_uncompressed := fun _ _ => ()
    code := fun _ d _ => ⟨(), d, 0, .streamEnd⟩
    lclppb_decode := fun _ _ => none }

/-- A concrete initial coder state as set up by `lzma2_decoder_init`
(lzma2_decoder.c, lines 252-254): `sequence = SEQ_CONTROL`,
`need_properties = true`, `need_dictionary_reset = true`; the remaining
fields are not initialised there, so the concrete values below are one
arbitrary choice. -/
def initCoder : Coder Unit Unit :=
  ⟨.control, .control, (), 0, 0, true, true, ()⟩

/-- A concrete empty dictionary. -/
def emptyDict : Dict := ⟨[], 0⟩

/-- A concrete environment whose inner decoder consumes `min 2 inp.length`
bytes per call and reports `LZMA_OK` (used to instantiate closed witness
statements about the `SEQ_LZMA` accounting). -/
def innerOk2 : Env Unit Unit :=
  { reset := fun _ _ => ()
    set_uncompressed := fun _ _ => ()
    code := fun s d inp => ⟨s, d, min 2 inp.length, .ok⟩
    lclppb_decode := fun _ _ => none }

/-- A concrete coder sitting in `SEQ_LZMA` with five compressed bytes left. -/
def lzmaAt5 : Coder Unit Unit :=
  ⟨.lzma, .control, (), 0, 5, true, true, ()⟩

/-- A concrete coder sitting in `SEQ_COPY` with two compressed bytes left. -/
def copyAt2 : Coder Unit Unit :=
  ⟨.copy, .control, (), 0, 2, true, true, ()⟩

end Lzma2

namespace Lzma2

/-- Rank of a phase is at most two. -/
theorem seqRank_le (s : Seq) : seqRank s ≤ 2 := by
  cases s <;> simp [seqRank]

/-- Every iteration of the decode loop that falls through to the next loop
test strictly decreases the termination measure
`3 * inp.length + seqRank sequence`. -/
theorem step1_next_measure (env : Env σ Opt) (c : Coder σ Opt) (d : Dict)
    (inp : List Nat) (c' : Coder σ Opt) (d' : Dict) (n : Nat)
    (h : step1 env c d inp = .next c' d' n) :
    3 * (inp.drop n).length + seqRank c'.sequence <
      3 * inp.length + seqRank c.sequence := by
  unfold step1 at h
  split at h
  all_goals try dsimp only at h
  all_goals try split at h
  all_goals try split at h
  all_goals try split at h
  all_goals try split at h
  all_goals try split at h
  all_goals
    first
      | exact Step1Out.noConfusion h
      | (injection h with h1 h2 h3
         subst h1
         subst h3)
  all_goals try simp_all [seqRank, dict_write]
  all_goals try (have hb := seqRank_le c.next_sequence; simp only [seqRank] at hb)
  all_goals omega

/-- Any fuel above the termination measure yields the same result, so the
fuel chosen by `lzma2_decode` is irrelevant as long as it suffices. -/
theorem lzma2_loop_fuel (env : Env σ Opt) :
    ∀ f g (c : Coder σ Opt) (d : Dict) (inp : List Nat),
      3 * inp.length + seqRank c.sequence < f →
      3 * inp.length + seqRank c.sequence < g →
      lzma2_loop env f c d inp = lzma2_loop env g c d inp := by
  intro f
  induction f with
  | zero => intro g c d inp hf; exact absurd hf (by omega)
  | succ f ih =>
    intro g c d inp hf hg
    cases g with
    | zero => exact absurd hg (by omega)
    | succ g =>
      unfold lzma2_loop
      cases hs : step1 env c d inp with
      | done c' d' n r => simp [hs]
      | next c' d' n =>
        have hm := step1_next_measure env c d inp c' d' n hs
        simp only [hs]
        rw [ih g c' d' (inp.drop n) (by omega) (by omega)]

/-- Unfolding rule: a call whose first loop iteration executes `return`. -/
theorem lzma2_decode_done (env : Env σ Opt) (c : Coder σ Opt) (d : Dict)
    (inp : List Nat) (c' : Coder σ Opt) (d' : Dict) (n : Nat) (r : Ret)
    (h : step1 env c d inp = .done c' d' n r) :
    lzma2_decode env c d inp = ⟨c', d', n, r⟩ := by
  unfold lzma2_decode
  rw [show 3 * inp.length + 3 = (3 * inp.length + 2) + 1 from rfl]
  unfold lzma2_loop
  rw [h]

/-- Unfolding rule: a call whose first loop iteration falls through continues
as a call on the remaining input. -/
theorem lzma2_decode_next (env : Env σ Opt) (c : Coder σ Opt) (d : Dict)
    (inp : List Nat) (c' : Coder σ Opt) (d' : Dict) (n : Nat)
    (h : step1 env c d inp = .next c' d' n) :
    lzma2_decode env c d inp =
      (let t := lzma2_decode env c' d' (inp.drop n)
       ⟨t.coder, t.dict, n + t.used, t.ret⟩) := by
  have hm := step1_next_measure env c d inp c' d' n h
  have hr := seqRank_le c'.sequence
  have hr2 := seqRank_le c.sequence
  unfold lzma2_decode
  rw [show 3 * inp.length + 3 = (3 * inp.length + 2) + 1 from rfl]
  conv_lhs => rw [lzma2_loop]
  simp only [h]
  rw [lzma2_loop_fuel env (3 * inp.length + 2) (3 * (inp.drop n).length + 3)
    c' d' (inp.drop n) (by omega) (by omega)]

/-- With no input left and not in `SEQ_LZMA`, the loop condition fails and
the iteration is the final `return LZMA_OK`. -/
theorem step1_nil (env : Env σ Opt) (c : Coder σ Opt) (d : Dict)
    (h : c.sequence ≠ .lzma) : step1 env c d [] = .done c d 0 .ok := by
  unfold step1
  split
  all_goals simp_all

/-- With no input left and not in `SEQ_LZMA`, a call returns `LZMA_OK` and
changes nothing. -/
theorem lzma2_decode_nil (env : Env σ Opt) (c : Coder σ Opt) (d : Dict)
    (h : c.sequence ≠ .lzma) : lzma2_decode env c d [] = ⟨c, d, 0, .ok⟩ :=
  lzma2_decode_done env c d [] c d 0 .ok (step1_nil env c d h)

/-- A `SEQ_CONTROL` iteration on a compressed control byte with reset level
three: dictionary reset, `need_dictionary_reset` and `need_properties`
cleared, properties announced. -/
theorem step1_control_compressed3 (env : Env σ Opt) (c : Coder σ Opt)
    (d : Dict) (b : Nat) (l : List Nat) (hseq : c.sequence = .control)
    (hb7 : b &&& 0x80 ≠ 0) (hlvl : (b >>> 5) &&& 3 = 3) :
    step1 env c d (b :: l) =
      .next { c with
        uncompressed_size := (b &&& 0x1F) <<< 16
        sequence := Seq.uncompressed1
        need_dictionary_reset := false
        need_properties := false
        next_sequence := Seq.properties } (dict_reset d) 1 := by
  unfold step1
  simp [hseq, hb7, hlvl]

/-- A `SEQ_CONTROL` iteration on control byte one: dictionary reset, then a
raw chunk. -/
theorem step1_control_raw1 (env : Env σ Opt) (c : Coder σ Opt)
    (d : Dict) (l : List Nat) (hseq : c.sequence = .control) :
    step1 env c d (1 :: l) =
      .next { c with
        need_dictionary_reset := false
        sequence := Seq.compressed0
        next_sequence := Seq.copy } (dict_reset d) 1 := by
  unfold step1
  simp [hseq]

/-- A `SEQ_UNCOMPRESSED_1` iteration adds `byte << 8`. -/
theorem step1_uncompressed1 (env : Env σ Opt) (c : Coder σ Opt)
    (d : Dict) (b : Nat) (l : List Nat) (hseq : c.sequence = .uncompressed1) :
    step1 env c d (b :: l) =
      .next { c with
        uncompressed_size := c.uncompressed_size + (b <<< 8)
        sequence := Seq.uncompressed2 } d 1 := by
  unfold step1
  simp [hseq]

/-- A `SEQ_UNCOMPRESSED_2` iteration adds `byte + 1` and notifies the inner
decoder of the expected uncompressed size. -/
theorem step1_uncompressed2 (env : Env σ Opt) (c : Coder σ Opt)
    (d : Dict) (b : Nat) (l : List Nat) (hseq : c.sequence = .uncompressed2) :
    step1 env c d (b :: l) =
      .next { c with
        uncompressed_size := c.uncompressed_size + b + 1
        sequence := Seq.compressed0
        lzma := env.set_uncompressed c.lzma (c.uncompressed_size + b + 1) }
        d 1 := by
  unfold step1
  simp [hseq]

/-- A `SEQ_COMPRESSED_0` iteration sets `byte << 8`. -/
theorem step1_compressed0 (env : Env σ Opt) (c : Coder σ Opt)
    (d : Dict) (b : Nat) (l : List Nat) (hseq : c.sequence = .compressed0) :
    step1 env c d (b :: l) =
      .next { c with
        compressed_size := b <<< 8
        sequence := Seq.compressed1 } d 1 := by
  unfold step1
  simp [hseq]

/-- A `SEQ_COMPRESSED_1` iteration adds `byte + 1` and dispatches to the
recorded `next_sequence`. -/
theorem step1_compressed1 (env : Env σ Opt) (c : Coder σ Opt)
    (d : Dict) (b : Nat) (l : List Nat) (hseq : c.sequence = .compressed1) :
    step1 env c d (b :: l) =
      .next { c with
        compressed_size := c.compressed_size + b + 1
        sequence := c.next_sequence } d 1 := by
  unfold step1
  simp [hseq]

/-- Characterisation of a `SEQ_LZMA` iteration in terms of the inner
decoder's result. -/
theorem step1_lzma (env : Env σ Opt) (c : Coder σ Opt)
    (d : Dict) (inp : List Nat) (hseq : c.sequence = .lzma) :
    step1 env c d inp =
      (let r := env.code c.lzma d inp
       if r.used > c.compressed_size then
         .done { c with lzma := r.st } r.dict r.used .dataError
       else
         if r.ret ≠ .streamEnd then
           .done { c with
             lzma := r.st
             compressed_size := c.compressed_size - r.used } r.dict r.used r.ret
         else if c.compressed_size - r.used ≠ 0 then
           .done { c with
             lzma := r.st
             compressed_size := c.compressed_size - r.used }
             r.dict r.used .dataError
         else
           .next { c with
             lzma := r.st
             compressed_size := c.compressed_size - r.used
             sequence := Seq.control } r.dict r.used) := by
  unfold step1
  simp [hseq]

/-- Characterisation of a `SEQ_COPY` iteration in terms of `dict_write`. -/
theorem step1_copy (env : Env σ Opt) (c : Coder σ Opt) (d : Dict)
    (b : Nat) (rest : List Nat) (hseq : c.sequence = .copy) :
    step1 env c d (b :: rest) =
      (let w := dict_write d (b :: rest) c.compressed_size
       if w.left ≠ 0 then
         .done { c with compressed_size := w.left } w.dict w.copied .ok
       else
         .next { c with compressed_size := w.left, sequence := Seq.control }
           w.dict w.copied) := by
  unfold step1
  simp [hseq]

/-- A call whose first iteration consumes one byte and falls through
continues as a call on the tail. -/
theorem lzma2_decode_cons (env : Env σ Opt) (c c' : Coder σ Opt)
    (d d' : Dict) (b : Nat) (l : List Nat)
    (h : step1 env c d (b :: l) = .next c' d' 1) :
    lzma2_decode env c d (b :: l) =
      ⟨(lzma2_decode env c' d' l).coder, (lzma2_decode env c' d' l).dict,
        1 + (lzma2_decode env c' d' l).used,
        (lzma2_decode env c' d' l).ret⟩ := by
  rw [lzma2_decode_next env c d (b :: l) c' d' 1 h]
  rfl

end Lzma2

namespace Lzma2

set_option maxRecDepth 2000 in
/-- C4: the properties decoder rejects every payload whose length is not one
byte with `OptionsError`; for a byte `b`, it fails with `OptionsError` iff
`(b &&& 0xC0) != 0` or `b > 40`; byte `40` yields the maximum representable
dictionary size (`UINT32_MAX`); for `b` in `0..39` the dictionary size is
`(2 | (b & 1)) << (b / 2 + 11)` (so byte `0x00` gives `4096`, checked by the
last conjunct together with the formula); the result carries no preset
dictionary (part of the stated record values). -/
theorem lzma2_props_decode_total :
    (∀ props : List Nat, props.length ≠ 1 →
       lzma_lzma2_props_decode props = .error .optionsError) ∧
    (∀ b : Fin 256,
       (lzma_lzma2_props_decode [b.val] = .error .optionsError ↔
          (b.val &&& 0xC0 ≠ 0 ∨ b.val > 40)) ∧
       (b.val ≤ 39 →
          lzma_lzma2_props_decode [b.val] =
            .ok ⟨(2 ||| (b.val &&& 1)) <<< (b.val / 2 + 11), none, 0⟩)) ∧
    lzma_lzma2_props_decode [40] = .ok ⟨UINT32_MAX, none, 0⟩ ∧
    lzma_lzma2_props_decode [0] = .ok ⟨4096, none, 0⟩ := by
  refine ⟨?_, ?_, by decide, by decide⟩
  · intro props h
    unfold lzma_lzma2_props_decode
    rw [if_pos h]
  · decide

/-- Witness for C4 at the concrete inputs `[1, 2]` (wrong length) and
`[0]`. -/
theorem lzma2_props_decode_total_witness :
    lzma_lzma2_props_decode [1, 2] = .error .optionsError ∧
    lzma_lzma2_props_decode [0] = .ok ⟨4096, none, 0⟩ :=
  ⟨lzma2_props_decode_total.1 [1, 2] (by decide),
   lzma2_props_decode_total.2.2.2⟩

/-- C9: reading the end-of-payload control byte `0x00` returns
`LZMA_STREAM_END` with the cursor advanced past that byte, the phase still
`SEQ_CONTROL` and no other state change (the returned coder is exactly the
argument coder), so a later call parses further input as a fresh control
byte. -/
theorem stream_end_not_latched (env : Env σ Opt) (c : Coder σ Opt) (d : Dict)
    (rest : List Nat) (h : c.sequence = .control) :
    lzma2_decode env c d (0 :: rest) = ⟨c, d, 1, .streamEnd⟩ := by
  apply lzma2_decode_done
  unfold step1
  simp [h]

/-- Witness for C9 at a concrete input with a byte after the marker. -/
theorem stream_end_not_latched_witness :
    lzma2_decode trivEnv initCoder emptyDict [0, 7] =
      ⟨initCoder, emptyDict, 1, .streamEnd⟩ :=
  stream_end_not_latched trivEnv initCoder emptyDict [7] rfl

/-- C6: in a control-phase state whose `need_properties` flag is still set, a
compressed control byte with reset level zero or one makes the call return
`LZMA_DATA_ERROR` (the spec's `FormatError`). -/
theorem compressed_before_properties_fails (env : Env σ Opt)
    (c : Coder σ Opt) (d : Dict) (b : Nat) (rest : List Nat)
    (hseq : c.sequence = .control) (hprops : c.need_properties = true)
    (hb7 : b &&& 0x80 ≠ 0)
    (hlvl : (b >>> 5) &&& 3 = 0 ∨ (b >>> 5) &&& 3 = 1) :
    (lzma2_decode env c d (b :: rest)).ret = .dataError := by
  have hstep : step1 env c d (b :: rest) =
      .done { c with
        uncompressed_size := (b &&& 0x1F) <<< 16
        sequence := Seq.uncompressed1 } d 1 .dataError := by
    unfold step1
    rcases hlvl with hl | hl <;> simp [hseq, hb7, hl, hprops]
  rw [lzma2_decode_done env c d (b :: rest) _ d 1 .dataError hstep]

/-- Witness for C6 at control byte `0x80` (reset level zero) from the initial
state. -/
theorem compressed_before_properties_fails_witness :
    (lzma2_decode trivEnv initCoder emptyDict [0x80]).ret = .dataError :=
  compressed_before_properties_fails trivEnv initCoder emptyDict 0x80 []
    rfl rfl (by decide) (Or.inl (by decide))

/-- C5: from a control-phase state with `need_dictionary_reset` still set (in
particular the initial state), a first chunk with control byte `0x02` or a
compressed control byte of reset level two returns `LZMA_DATA_ERROR`, while
control byte `0x01` or reset level three passes this check (the call on the
single control byte returns `LZMA_OK`). -/
theorem first_chunk_requires_reset (env : Env σ Opt) (c : Coder σ Opt)
    (d : Dict) (b : Nat) (rest : List Nat)
    (hseq : c.sequence = .control) (hdict : c.need_dictionary_reset = true) :
    ((b = 2 ∨ (b &&& 0x80 ≠ 0 ∧ (b >>> 5) &&& 3 = 2)) →
       (lzma2_decode env c d (b :: rest)).ret = .dataError) ∧
    ((b = 1 ∨ (b &&& 0x80 ≠ 0 ∧ (b >>> 5) &&& 3 = 3)) →
       (lzma2_decode env c d [b]).ret = .ok) := by
  constructor
  · rintro (hb | ⟨hb7, hlvl⟩)
    · subst hb
      have hstep : step1 env c d (2 :: rest) = .done c d 1 .dataError := by
        unfold step1
        simp [hseq, hdict, show (2 : Nat) &&& 128 = 0 from rfl]
      rw [lzma2_decode_done env c d (2 :: rest) c d 1 .dataError hstep]
    · have hstep : step1 env c d (b :: rest) =
          .done { c with
            uncompressed_size := (b &&& 0x1F) <<< 16
            sequence := Seq.uncompressed1 } d 1 .dataError := by
        unfold step1
        simp [hseq, hb7, hlvl, hdict]
      rw [lzma2_decode_done env c d (b :: rest) _ d 1 .dataError hstep]
  · rintro (hb | ⟨hb7, hlvl⟩)
    · subst hb
      rw [lzma2_decode_cons env _ _ _ _ _ _ (step1_control_raw1 env c d [] hseq)]
      simp [lzma2_decode_nil]
    · rw [lzma2_decode_cons env _ _ _ _ _ _
        (step1_control_compressed3 env c d b [] hseq hb7 hlvl)]
      simp [lzma2_decode_nil]

/-- Witness for C5 at the concrete first bytes `0x02` (fails) and `0x01`
(passes). -/
theorem first_chunk_requires_reset_witness :
    (lzma2_decode trivEnv initCoder emptyDict [2]).ret = .dataError ∧
    (lzma2_decode trivEnv initCoder emptyDict [1]).ret = .ok :=
  ⟨(first_chunk_requires_reset trivEnv initCoder emptyDict 2 [] rfl rfl).1
     (Or.inl rfl),
   (first_chunk_requires_reset trivEnv initCoder emptyDict 1 [] rfl rfl).2
     (Or.inl rfl)⟩

/-- C10: an error return from the control phase is not atomic: the cursor has
advanced past the offending control byte (`used = 1`) and the fields written
before the failing check keep their new values. An invalid raw byte
(`3..0x7F`) and the `0x02`-without-reset error leave the coder unchanged; a
compressed control byte failing the reset or properties check has already
recorded the high uncompressed-size bits and moved the phase to
`SEQ_UNCOMPRESSED_1`. -/
theorem control_error_not_atomic (env : Env σ Opt) (c : Coder σ Opt)
    (d : Dict) (b : Nat) (rest : List Nat) (hseq : c.sequence = .control) :
    (b &&& 0x80 = 0 → 3 ≤ b →
       lzma2_decode env c d (b :: rest) = ⟨c, d, 1, .dataError⟩) ∧
    (b = 2 → c.need_dictionary_reset = true →
       lzma2_decode env c d (b :: rest) = ⟨c, d, 1, .dataError⟩) ∧
    (b &&& 0x80 ≠ 0 → (b >>> 5) &&& 3 = 2 → c.need_dictionary_reset = true →
       lzma2_decode env c d (b :: rest) =
         ⟨{ c with
             uncompressed_size := (b &&& 0x1F) <<< 16
             sequence := Seq.uncompressed1 }, d, 1, .dataError⟩) ∧
    (b &&& 0x80 ≠ 0 → ((b >>> 5) &&& 3 = 0 ∨ (b >>> 5) &&& 3 = 1) →
       c.need_properties = true →
       lzma2_decode env c d (b :: rest) =
         ⟨{ c with
             uncompressed_size := (b &&& 0x1F) <<< 16
             sequence := Seq.uncompressed1 }, d, 1, .dataError⟩) := by
  refine ⟨?_, ?_, ?_, ?_⟩
  · intro hb7 hb3
    apply lzma2_decode_done
    unfold step1
    have h0 : ¬ b = 0 := by omega
    have h1 : ¬ b = 1 := by omega
    have h2 : ¬ b = 2 := by omega
    simp [hseq, hb7, h0, h1, h2]
  · intro hb hdict
    subst hb
    apply lzma2_decode_done
    unfold step1
    simp [hseq, hdict, show (2 : Nat) &&& 128 = 0 from rfl]
  · intro hb7 hlvl hdict
    apply lzma2_decode_done
    unfold step1
    simp [hseq, hb7, hlvl, hdict]
  · intro hb7 hlvl hprops
    apply lzma2_decode_done
    unfold step1
    rcases hlvl with hl | hl <;> simp [hseq, hb7, hl, hprops]

/-- Witness for C10 at the concrete control bytes `5` (invalid) and `0xC0`
(reset level two before any reset). -/
theorem control_error_not_atomic_witness :
    lzma2_decode trivEnv initCoder emptyDict [5] =
      ⟨initCoder, emptyDict, 1, .dataError⟩ ∧
    lzma2_decode trivEnv initCoder emptyDict [0xC0] =
      ⟨⟨Seq.uncompressed1, Seq.control, (), 0, 0, true, true, ()⟩,
        emptyDict, 1, .dataError⟩ :=
  ⟨(control_error_not_atomic trivEnv initCoder emptyDict 5 [] rfl).1
     (by decide) (by decide),
   (control_error_not_atomic trivEnv initCoder emptyDict 0xC0 [] rfl).2.2.1
     (by decide) (by decide) rfl⟩

/-- C3 (counterexample): a state in which `need_properties` is false although
no properties byte has ever been decoded, reached from the initial state by
one call on the single compressed control byte `0xE0` (reset level three).
The call's phase trace is `[SEQ_CONTROL]`, so no iteration ran in
`SEQ_PROPERTIES` — the only phase in which a properties byte can be decoded —
yet the flag is already false. -/
theorem need_properties_false_without_decode :
    initCoder.need_properties = true ∧
    (lzma2_decode trivEnv initCoder emptyDict [0xE0]).coder.need_properties
      = false ∧
    (lzma2_decode trivEnv initCoder emptyDict [0xE0]).coder.sequence
      = Seq.uncompressed1 ∧
    lzma2_trace trivEnv initCoder emptyDict [0xE0] = [Seq.control] := by
  decide

/-- C3 (amended): `need_properties` can fall from true to false only in a
`SEQ_CONTROL` iteration that accepts a compressed control byte of reset level
at least two (which commits the stream to a following properties byte); in
particular it is already false before the properties byte itself is
decoded. -/
theorem need_properties_cleared_only_in_control (env : Env σ Opt)
    (c : Coder σ Opt) (d : Dict) (inp : List Nat)
    (hold : c.need_properties = true)
    (hnew : (step1 env c d inp).coder.need_properties = false) :
    c.sequence = .control ∧
      ∃ b rest, inp = b :: rest ∧ b &&& 0x80 ≠ 0 ∧ 2 ≤ (b >>> 5) &&& 3 := by
  unfold step1 at hnew
  split at hnew
  all_goals try dsimp only at hnew
  all_goals try split at hnew
  all_goals try split at hnew
  all_goals try split at hnew
  all_goals try split at hnew
  all_goals try split at hnew
  all_goals simp_all [Step1Out.coder]

/-- Witness for the amended C3 at the concrete control byte `0xE0` from the
initial state. -/
theorem need_properties_cleared_witness :
    initCoder.sequence = Seq.control ∧
      ∃ b rest, ([0xE0] : List Nat) = b :: rest ∧
        b &&& 0x80 ≠ 0 ∧ 2 ≤ (b >>> 5) &&& 3 :=
  need_properties_cleared_only_in_control trivEnv initCoder emptyDict
    [0xE0] (by decide) (by decide)

/-- C2: accounting of `compressed_size` for the running chunk. In a
`SEQ_LZMA` iteration: if the inner decoder consumed more than
`compressed_size`, the call returns `LZMA_DATA_ERROR`; otherwise exactly the
consumed bytes are subtracted (so the counter never increases); if the inner
decoder reports chunk completion (`LZMA_STREAM_END`) with a nonzero
remainder the call returns `LZMA_DATA_ERROR`, and only a remainder of
exactly zero lets the machine fall through to `SEQ_CONTROL`. In a `SEQ_COPY`
iteration the counter is decremented by exactly the copied bytes. -/
theorem compressed_size_accounting (env : Env σ Opt) (c : Coder σ Opt)
    (d : Dict) (inp : List Nat) :
    (c.sequence = .lzma →
      (let r := env.code c.lzma d inp
       (r.used > c.compressed_size →
          step1 env c d inp =
            .done { c with lzma := r.st } r.dict r.used .dataError) ∧
       (r.used ≤ c.compressed_size → r.ret ≠ .streamEnd →
          step1 env c d inp =
            .done { c with
              lzma := r.st
              compressed_size := c.compressed_size - r.used }
              r.dict r.used r.ret ∧
          c.compressed_size - r.used ≤ c.compressed_size) ∧
       (r.used ≤ c.compressed_size → r.ret = .streamEnd →
          c.compressed_size - r.used ≠ 0 →
          step1 env c d inp =
            .done { c with
              lzma := r.st
              compressed_size := c.compressed_size - r.used }
              r.dict r.used .dataError) ∧
       (r.used ≤ c.compressed_size → r.ret = .streamEnd →
          c.compressed_size - r.used = 0 →
          step1 env c d inp =
            .next { c with
              lzma := r.st
              compressed_size := 0
              sequence := Seq.control } r.dict r.used))) ∧
    (c.sequence = .copy → inp ≠ [] →
       (step1 env c d inp).coder.compressed_size =
         c.compressed_size - (dict_write d inp c.compressed_size).copied ∧
       (dict_write d inp c.compressed_size).copied ≤ c.compressed_size) := by
  constructor
  · intro hseq
    refine ⟨?_, ?_, ?_, ?_⟩
    · intro hgt
      unfold step1
      simp [hseq, hgt]
    · intro hle hret
      unfold step1
      simp [hseq, hret, Nat.not_lt.mpr hle]
    · intro hle hret hnz
      unfold step1
      simp [hseq, hret, Nat.not_lt.mpr hle, hnz]
    · intro hle hret hz
      unfold step1
      simp [hseq, hret, Nat.not_lt.mpr hle, hz]
  · intro hseq hinp
    cases inp with
    | nil => exact absurd rfl hinp
    | cons b rest =>
      rw [step1_copy env c d b rest hseq]
      dsimp only
      constructor
      · split <;> simp [Step1Out.coder, dict_write]
      · simp [dict_write]

/-- Witness for C2: a concrete inner decoder consuming two of five declared
compressed bytes with `LZMA_OK`. -/
theorem compressed_size_accounting_witness :
    step1 innerOk2 lzmaAt5 emptyDict [9, 9, 9] =
      .done ⟨Seq.lzma, Seq.control, (), 0, 3, true, true, ()⟩
        emptyDict 2 .ok := by
  have h := (compressed_size_accounting innerOk2 lzmaAt5 emptyDict
    [9, 9, 9]).1 rfl
  exact (h.2.1 (by decide) (by decide)).1

/-- C8: in a `SEQ_COPY` iteration the copied byte count never exceeds the
available input nor `compressed_size`; `compressed_size` is decremented by
exactly the copied count; the copied bytes are appended to the dictionary;
while the remainder is nonzero the call returns `LZMA_OK` (the spec's
`Continue`) still in `SEQ_COPY`, and exactly when it reaches zero the
machine falls through to `SEQ_CONTROL`. -/
theorem raw_copy_bounded (env : Env σ Opt) (c : Coder σ Opt) (d : Dict)
    (b : Nat) (rest : List Nat) (hseq : c.sequence = .copy) :
    (dict_write d (b :: rest) c.compressed_size).copied ≤
        (b :: rest : List Nat).length ∧
    (dict_write d (b :: rest) c.compressed_size).copied ≤
        c.compressed_size ∧
    (dict_write d (b :: rest) c.compressed_size).left =
        c.compressed_size -
          (dict_write d (b :: rest) c.compressed_size).copied ∧
    (dict_write d (b :: rest) c.compressed_size).dict.buf =
        d.buf ++ (b :: rest : List Nat).take
          ((dict_write d (b :: rest) c.compressed_size).copied) ∧
    ((dict_write d (b :: rest) c.compressed_size).left ≠ 0 →
       step1 env c d (b :: rest) =
         .done { c with
             compressed_size :=
               (dict_write d (b :: rest) c.compressed_size).left }
           (dict_write d (b :: rest) c.compressed_size).dict
           (dict_write d (b :: rest) c.compressed_size).copied .ok) ∧
    ((dict_write d (b :: rest) c.compressed_size).left = 0 →
       step1 env c d (b :: rest) =
         .next { c with
             compressed_size := 0
             sequence := Seq.control }
           (dict_write d (b :: rest) c.compressed_size).dict
           (dict_write d (b :: rest) c.compressed_size).copied) := by
  refine ⟨?_, ?_, ?_, ?_, ?_, ?_⟩
  · simp [dict_write]
  · simp [dict_write]
  · simp [dict_write]
  · simp [dict_write]
  · intro hl
    rw [step1_copy env c d b rest hseq]
    simp [hl]
  · intro hl
    rw [step1_copy env c d b rest hseq]
    simp [hl]

/-- Witness for C8: two declared bytes copied out of three available. -/
theorem raw_copy_bounded_witness :
    step1 trivEnv copyAt2 emptyDict [7, 8, 9] =
      .next ⟨Seq.control, Seq.control, (), 0, 0, true, true, ()⟩
        ⟨[7, 8], 0⟩ 2 :=
  (raw_copy_bounded trivEnv copyAt2 emptyDict 7 [8, 9] rfl).2.2.2.2.2
    (by decide)

/-- C7: for a compressed chunk with control byte `cb` (reset level three so
the header is accepted from any control state) and header bytes `b1..b4`,
the decoded uncompressed count is `((cb & 0x1F) << 16) | (b1 << 8) | b2 + 1`,
a value in `1..2^21`, and the compressed count is `((b3 << 8) | b4) + 1`, a
value in `1..2^16`; feeding the five header bytes one call at a time yields
the same coder and dictionary as one call; for a raw chunk (control byte
`0x01`) the body size is the same two-byte big-endian field plus one. -/
theorem size_field_decoding (env : Env σ Opt) (c : Coder σ Opt) (d : Dict)
    (cb b1 b2 b3 b4 : Nat)
    (hseq : c.sequence = .control)
    (hcb : cb &&& 0x80 ≠ 0) (hlvl : (cb >>> 5) &&& 3 = 3)
    (hb1 : b1 < 256) (hb2 : b2 < 256) (hb3 : b3 < 256) (hb4 : b4 < 256) :
    ∀ one s1 s2 s3 s4 s5 r1 : DecodeResult σ Opt,
      one = lzma2_decode env c d [cb, b1, b2, b3, b4] →
      s1 = lzma2_decode env c d [cb] →
      s2 = lzma2_decode env s1.coder s1.dict [b1] →
      s3 = lzma2_decode env s2.coder s2.dict [b2] →
      s4 = lzma2_decode env s3.coder s3.dict [b3] →
      s5 = lzma2_decode env s4.coder s4.dict [b4] →
      r1 = lzma2_decode env c d [1, b3, b4] →
      one.coder = s5.coder ∧ one.dict = s5.dict ∧
      one.ret = .ok ∧ s5.ret = .ok ∧ one.used = 5 ∧
      one.coder.uncompressed_size =
        ((cb &&& 0x1F) <<< 16) + (b1 <<< 8) + b2 + 1 ∧
      1 ≤ one.coder.uncompressed_size ∧
      one.coder.uncompressed_size ≤ 2 ^ 21 ∧
      one.coder.compressed_size = (b3 <<< 8) + b4 + 1 ∧
      1 ≤ one.coder.compressed_size ∧
      one.coder.compressed_size ≤ 2 ^ 16 ∧
      one.coder.sequence = Seq.properties ∧
      r1.coder.compressed_size = (b3 <<< 8) + b4 + 1 ∧
      r1.ret = .ok ∧ r1.used = 3 ∧ r1.coder.sequence = Seq.copy := by
  intro one s1 s2 s3 s4 s5 r1 hone hs1 hs2 hs3 hs4 hs5 hr1
  rw [lzma2_decode_cons env _ _ _ _ _ _
    (step1_control_compressed3 env c d cb [b1, b2, b3, b4] hseq hcb hlvl)]
    at hone
  rw [lzma2_decode_cons env _ _ _ _ _ _
    (step1_uncompressed1 env _ _ b1 [b2, b3, b4] rfl)] at hone
  rw [lzma2_decode_cons env _ _ _ _ _ _
    (step1_uncompressed2 env _ _ b2 [b3, b4] rfl)] at hone
  rw [lzma2_decode_cons env _ _ _ _ _ _
    (step1_compressed0 env _ _ b3 [b4] rfl)] at hone
  rw [lzma2_decode_cons env _ _ _ _ _ _
    (step1_compressed1 env _ _ b4 [] rfl)] at hone
  rw [lzma2_decode_nil env _ _ (by simp)] at hone
  rw [lzma2_decode_cons env _ _ _ _ _ _
    (step1_control_compressed3 env c d cb [] hseq hcb hlvl)] at hs1
  rw [lzma2_decode_nil env _ _ (by simp)] at hs1
  subst hs1
  rw [lzma2_decode_cons env _ _ _ _ _ _
    (step1_uncompressed1 env _ _ b1 [] rfl)] at hs2
  rw [lzma2_decode_nil env _ _ (by simp)] at hs2
  subst hs2
  rw [lzma2_decode_cons env _ _ _ _ _ _
    (step1_uncompressed2 env _ _ b2 [] rfl)] at hs3
  rw [lzma2_decode_nil env _ _ (by simp)] at hs3
  subst hs3
  rw [lzma2_decode_cons env _ _ _ _ _ _
    (step1_compressed0 env _ _ b3 [] rfl)] at hs4
  rw [lzma2_decode_nil env _ _ (by simp)] at hs4
  subst hs4
  rw [lzma2_decode_cons env _ _ _ _ _ _
    (step1_compressed1 env _ _ b4 [] rfl)] at hs5
  rw [lzma2_decode_nil env _ _ (by simp)] at hs5
  subst hs5
  rw [lzma2_decode_cons env _ _ _ _ _ _
    (step1_control_raw1 env c d [b3, b4] hseq)] at hr1
  rw [lzma2_decode_cons env _ _ _ _ _ _
    (step1_compressed0 env _ _ b3 [b4] rfl)] at hr1
  rw [lzma2_decode_cons env _ _ _ _ _ _
    (step1_compressed1 env _ _ b4 [] rfl)] at hr1
  rw [lzma2_decode_nil env _ _ (by simp)] at hr1
  subst hone
  subst hr1
  have hcb31 : cb &&& 0x1F ≤ 0x1F := Nat.and_le_right
  refine ⟨rfl, rfl, rfl, rfl, rfl, ?_, ?_, ?_, ?_, ?_, ?_, rfl, ?_, rfl, rfl,
    rfl⟩
  all_goals simp [Nat.shiftLeft_eq]
  all_goals omega

/-- Witness for C7 at the concrete header `E0 00 04 00 01`. -/
theorem size_field_decoding_witness :
    (lzma2_decode trivEnv initCoder emptyDict [0xE0, 0, 4, 0, 1]).used = 5 ∧
    (lzma2_decode trivEnv initCoder emptyDict
        [0xE0, 0, 4, 0, 1]).coder.uncompressed_size = 5 ∧
    (lzma2_decode trivEnv initCoder emptyDict
        [0xE0, 0, 4, 0, 1]).coder.compressed_size = 2 := by
  have h := size_field_decoding trivEnv initCoder emptyDict 0xE0 0 4 0 1
    rfl (by decide) (by decide) (by decide) (by decide) (by decide)
    (by decide) _ _ _ _ _ _ _ rfl rfl rfl rfl rfl rfl rfl
  exact ⟨h.2.2.2.2.1, h.2.2.2.2.2.1.trans (by decide),
    h.2.2.2.2.2.2.2.2.1.trans (by decide)⟩

end Lzma2

namespace Lzma2

/-- Iterations of the byte-at-a-time phases depend only on the head byte,
not on the rest of the buffer. -/
theorem step1_head (env : Env σ Opt) (c : Coder σ Opt) (d : Dict)
    (b : Nat) (l l' : List Nat)
    (h1 : c.sequence ≠ .lzma) (h2 : c.sequence ≠ .copy) :
    step1 env c d (b :: l) = step1 env c d (b :: l') := by
  unfold step1
  cases hs : c.sequence <;> simp_all

/-- A falling-through iteration never consumes more bytes than are
available (assuming the inner decoder does not). -/
theorem step1_next_le (env : Env σ Opt)
    (Hle : ∀ s dd r, (env.code s dd r).used ≤ r.length)
    (c : Coder σ Opt) (d : Dict) (inp : List Nat) (c' : Coder σ Opt)
    (d' : Dict) (n : Nat) (h : step1 env c d inp = .next c' d' n) :
    n ≤ inp.length := by
  unfold step1 at h
  split at h
  all_goals try dsimp only at h
  all_goals try split at h
  all_goals try split at h
  all_goals try split at h
  all_goals try split at h
  all_goals try split at h
  all_goals
    first
      | exact Step1Out.noConfusion h
      | (injection h with h1 h2 h3
         subst h3)
  all_goals simp_all [dict_write]


/-- Extension stability: an iteration that falls through behaves
identically when the input buffer is extended on the right (assuming the
inner decoder is extension stable). -/
theorem step1_append_next (env : Env σ Opt)
    (Hext : ∀ s dd r ys, ((env.code s dd r).ret ≠ .ok ∨
        (env.code s dd r).used < r.length) →
      env.code s dd (r ++ ys) = env.code s dd r)
    (c : Coder σ Opt) (d : Dict) (xs ys : List Nat) (c' : Coder σ Opt)
    (d' : Dict) (n : Nat) (h : step1 env c d xs = .next c' d' n) :
    step1 env c d (xs ++ ys) = .next c' d' n := by
  by_cases hs : c.sequence = .lzma
  · rw [step1_lzma env c d xs hs] at h
    dsimp only at h
    split at h
    · exact Step1Out.noConfusion h
    · split at h
      · exact Step1Out.noConfusion h
      · split at h
        · exact Step1Out.noConfusion h
        · rename_i hgt hret hz
          injection h with h1 h2 h3
          subst h1
          subst h2
          subst h3
          have hcode : env.code c.lzma d (xs ++ ys) = env.code c.lzma d xs :=
            Hext c.lzma d xs ys (Or.inl (by
              intro hok
              rw [hok] at hret
              simp at hret))
          rw [step1_lzma env c d (xs ++ ys) hs]
          dsimp only
          rw [hcode, if_neg hgt, if_neg hret, if_neg hz]
  · cases hxs : xs with
    | nil =>
      subst hxs
      rw [step1_nil env c d hs] at h
      exact Step1Out.noConfusion h
    | cons b rest =>
      subst hxs
      by_cases hc : c.sequence = .copy
      · rw [step1_copy env c d b rest hc] at h
        try dsimp only at h
        split at h
        · exact Step1Out.noConfusion h
        · rename_i hl
          injection h with h1 h2 h3
          subst h1
          subst h2
          subst h3
          rw [show (b :: rest) ++ ys = b :: (rest ++ ys) from rfl]
          rw [step1_copy env c d b (rest ++ ys) hc]
          try dsimp only
          simp only [dict_write] at hl ⊢
          try dsimp only at hl ⊢
          have hcs : c.compressed_size ≤ rest.length + 1 := by
            by_contra hlt
            simp only [List.length_cons] at hl
            omega
          have hm1 : min (b :: rest : List Nat).length c.compressed_size =
              c.compressed_size := by
            simp only [List.length_cons]
            omega
          have hm2 : min (b :: (rest ++ ys) : List Nat).length
              c.compressed_size = c.compressed_size := by
            simp only [List.length_cons, List.length_append]
            omega
          have htake : (b :: (rest ++ ys) : List Nat).take c.compressed_size =
              (b :: rest : List Nat).take c.compressed_size := by
            rw [show (b :: (rest ++ ys) : List Nat) =
              (b :: rest : List Nat) ++ ys from rfl]
            exact List.take_append_of_le_length (by simpa using hcs)
          simp only [List.length_cons, List.length_append] at hm1 hm2 ⊢
          rw [hm1, hm2, htake]
          simp
      · rw [show (b :: rest) ++ ys = b :: (rest ++ ys) from rfl]
        rw [step1_head env c d b (rest ++ ys) rest hs hc]
        exact h


/-- Extension stability for returning iterations whose result is
`LZMA_STREAM_END`, or `LZMA_OK` with input left over (the output-blocked
case): the same return happens at the same point on an extended buffer. -/
theorem step1_append_done_stable (env : Env σ Opt)
    (Hext : ∀ s dd r ys, ((env.code s dd r).ret ≠ .ok ∨
        (env.code s dd r).used < r.length) →
      env.code s dd (r ++ ys) = env.code s dd r)
    (c : Coder σ Opt) (d : Dict) (xs ys : List Nat) (c' : Coder σ Opt)
    (d' : Dict) (n : Nat) (r : Ret)
    (h : step1 env c d xs = .done c' d' n r)
    (hr : r = .streamEnd ∨ (r = .ok ∧ n < xs.length)) :
    step1 env c d (xs ++ ys) = .done c' d' n r := by
  by_cases hs : c.sequence = .lzma
  · rw [step1_lzma env c d xs hs] at h
    try dsimp only at h
    split at h
    · rename_i hgt
      injection h with h1 h2 h3 h4
      rcases hr with h5 | ⟨h5, h6⟩ <;> simp_all
    · rename_i hgt
      split at h
      · rename_i hret
        injection h with h1 h2 h3 h4
        subst h1
        subst h2
        subst h3
        subst h4
        rcases hr with h5 | ⟨h5, h6⟩
        · exact absurd h5 hret
        · have hcode := Hext c.lzma d xs ys (Or.inr h6)
          rw [step1_lzma env c d (xs ++ ys) hs]
          try dsimp only
          rw [hcode, if_neg hgt, if_pos hret]
      · split at h
        · rename_i hret hz
          injection h with h1 h2 h3 h4
          rcases hr with h5 | ⟨h5, h6⟩ <;> simp_all
        · exact Step1Out.noConfusion h
  · cases hxs : xs with
    | nil =>
      subst hxs
      rw [step1_nil env c d hs] at h
      injection h with h1 h2 h3 h4
      subst h4
      rcases hr with h5 | ⟨h5, h6⟩
      · exact Ret.noConfusion h5
      · rw [← h3] at h6
        simp at h6
    | cons b rest =>
      subst hxs
      by_cases hc : c.sequence = .copy
      · rw [step1_copy env c d b rest hc] at h
        try dsimp only at h
        split at h
        · rename_i hl
          injection h with h1 h2 h3 h4
          subst h3
          subst h4
          rcases hr with h5 | ⟨h5, h6⟩
          · simp_all
          · exfalso
            simp only [dict_write, List.length_cons] at hl h6
            omega
        · exact Step1Out.noConfusion h
      · rw [show (b :: rest) ++ ys = b :: (rest ++ ys) from rfl]
        rw [step1_head env c d b (rest ++ ys) rest hs hc]
        exact h


/-- Resumption at an input-starved `SEQ_LZMA` iteration: if a call ended by
handing the whole rest of its buffer to the inner decoder, which consumed it
all and reported `LZMA_OK`, then a call on the extended buffer behaves like
the first call followed by a call on the extra bytes, provided the follow-up
call does not end in an error. -/
theorem lzma2_sync_lzma (env : Env σ Opt)
    (Hsplit : ∀ s dd r ys, (env.code s dd r).ret = .ok →
      (env.code s dd r).used = r.length →
      env.code s dd (r ++ ys) =
        ⟨(env.code (env.code s dd r).st (env.code s dd r).dict ys).st,
         (env.code (env.code s dd r).st (env.code s dd r).dict ys).dict,
         r.length + (env.code (env.code s dd r).st (env.code s dd r).dict ys).used,
         (env.code (env.code s dd r).st (env.code s dd r).dict ys).ret⟩)
    (c : Coder σ Opt) (d : Dict) (xs ys : List Nat)
    (c1 : Coder σ Opt) (d1 : Dict)
    (hs : c.sequence = .lzma)
    (hstep : step1 env c d xs = .done c1 d1 xs.length .ok)
    (hys : (lzma2_decode env c1 d1 ys).ret = .ok ∨
           (lzma2_decode env c1 d1 ys).ret = .streamEnd) :
    lzma2_decode env c d (xs ++ ys) =
      ⟨(lzma2_decode env c1 d1 ys).coder, (lzma2_decode env c1 d1 ys).dict,
       xs.length + (lzma2_decode env c1 d1 ys).used,
       (lzma2_decode env c1 d1 ys).ret⟩ := by
  rw [step1_lzma env c d xs hs] at hstep
  try dsimp only at hstep
  split at hstep
  · injection hstep with h1 h2 h3 h4
    exact Ret.noConfusion h4
  · rename_i hgt
    split at hstep
    · rename_i hret
      injection hstep with h1 h2 h3 h4
      subst h1
      subst h2
      have hcode := Hsplit c.lzma d xs ys h4 h3
      have hR := step1_lzma env
        { c with
          lzma := (env.code c.lzma d xs).st
          compressed_size :=
            c.compressed_size - (env.code c.lzma d xs).used }
        (env.code c.lzma d xs).dict ys hs
      have hC := step1_lzma env c d (xs ++ ys) hs
      rw [hcode] at hC
      dsimp only at hR hC
      rw [h3] at hR hgt hys ⊢
      by_cases hgt1 : (env.code (env.code c.lzma d xs).st
          (env.code c.lzma d xs).dict ys).used >
          c.compressed_size - xs.length
      · rw [if_pos hgt1] at hR
        rw [lzma2_decode_done env _ _ ys _ _ _ _ hR] at hys
        simp at hys
      · rw [if_neg hgt1] at hR
        rw [if_neg (by omega)] at hC
        by_cases hret1 : (env.code (env.code c.lzma d xs).st
            (env.code c.lzma d xs).dict ys).ret = .streamEnd
        · rw [if_neg (by simp [hret1])] at hR hC
          have hss : c.compressed_size - (xs.length +
              (env.code (env.code c.lzma d xs).st
                (env.code c.lzma d xs).dict ys).used) =
              c.compressed_size - xs.length -
              (env.code (env.code c.lzma d xs).st
                (env.code c.lzma d xs).dict ys).used :=
            (Nat.sub_sub _ _ _).symm
          rw [hss] at hC
          by_cases hz : c.compressed_size - xs.length -
              (env.code (env.code c.lzma d xs).st
                (env.code c.lzma d xs).dict ys).used ≠ 0
          · rw [if_pos hz] at hR
            rw [lzma2_decode_done env _ _ ys _ _ _ _ hR] at hys
            simp at hys
          · rw [if_neg hz] at hR hC
            rw [lzma2_decode_next env c d (xs ++ ys) _ _ _ hC]
            rw [lzma2_decode_next env _ _ ys _ _ _ hR]
            dsimp only
            rw [List.drop_append]
            simp [Nat.add_assoc]
        · rw [if_pos hret1] at hR hC
          rw [lzma2_decode_done env c d (xs ++ ys) _ _ _ _ hC]
          rw [lzma2_decode_done env _ _ ys _ _ _ _ hR]
          dsimp only
          simp [Nat.sub_sub]
    · split at hstep
      · injection hstep with h1 h2 h3 h4
        exact Ret.noConfusion h4
      · exact Step1Out.noConfusion hstep


/-- Resumption at an input-starved `SEQ_COPY` iteration: a raw chunk whose
body is cut off by the end of the buffer is continued exactly by a call on
the extra bytes. -/
theorem lzma2_sync_copy (env : Env σ Opt)
    (c : Coder σ Opt) (d : Dict) (b : Nat) (rest ys : List Nat)
    (c1 : Coder σ Opt) (d1 : Dict)
    (hc : c.sequence = .copy)
    (hstep : step1 env c d (b :: rest) = .done c1 d1 (b :: rest).length .ok) :
    lzma2_decode env c d ((b :: rest) ++ ys) =
      ⟨(lzma2_decode env c1 d1 ys).coder, (lzma2_decode env c1 d1 ys).dict,
       (b :: rest : List Nat).length + (lzma2_decode env c1 d1 ys).used,
       (lzma2_decode env c1 d1 ys).ret⟩ := by
  have hstep0 := hstep
  rw [step1_copy env c d b rest hc] at hstep
  try dsimp only at hstep
  split at hstep
  · rename_i hl
    injection hstep with h1 h2 h3
    subst h1
    subst h2
    simp only [dict_write] at hl h3 ⊢
    try dsimp only at hl h3 ⊢
    cases ys with
    | nil =>
      rw [List.append_nil]
      rw [lzma2_decode_done env c d (b :: rest) _ _ _ _ hstep0]
      rw [lzma2_decode_nil env _ _ (by simp [hc])]
      simp only [dict_write]
      try dsimp only
      simp
    | cons b2 rest2 =>
      have hlt : (b :: rest : List Nat).length < c.compressed_size := by
        simp only [List.length_cons] at h3 hl ⊢
        omega
      rw [h3, List.take_length, List.cons_append]
      have hR := step1_copy env
        { c with compressed_size :=
            c.compressed_size - (b :: rest : List Nat).length }
        ⟨d.buf ++ (b :: rest), d.resets⟩ b2 rest2 hc
      simp only [dict_write] at hR
      try dsimp only at hR
      have hC := step1_copy env c d b (rest ++ (b2 :: rest2)) hc
      simp only [dict_write] at hC
      try dsimp only at hC
      have e1 : min (b :: (rest ++ b2 :: rest2) : List Nat).length
            c.compressed_size =
          (b :: rest : List Nat).length +
            min (b2 :: rest2 : List Nat).length
              (c.compressed_size - (b :: rest : List Nat).length) := by
        simp only [List.length_cons, List.length_append] at hlt ⊢
        omega
      rw [e1] at hC
      have e2 : (b :: (rest ++ b2 :: rest2) : List Nat).take
            ((b :: rest : List Nat).length +
              min (b2 :: rest2 : List Nat).length
                (c.compressed_size - (b :: rest : List Nat).length)) =
          (b :: rest) ++ (b2 :: rest2 : List Nat).take
            (min (b2 :: rest2 : List Nat).length
              (c.compressed_size - (b :: rest : List Nat).length)) := by
        rw [← List.cons_append, List.take_append]
      rw [e2] at hC
      have e3 : c.compressed_size - ((b :: rest : List Nat).length +
            min (b2 :: rest2 : List Nat).length
              (c.compressed_size - (b :: rest : List Nat).length)) =
          c.compressed_size - (b :: rest : List Nat).length -
            min (b2 :: rest2 : List Nat).length
              (c.compressed_size - (b :: rest : List Nat).length) :=
        (Nat.sub_sub _ _ _).symm
      rw [e3] at hC
      by_cases hz : c.compressed_size - (b :: rest : List Nat).length -
          min (b2 :: rest2 : List Nat).length
            (c.compressed_size - (b :: rest : List Nat).length) ≠ 0
      · rw [if_pos hz] at hR hC
        rw [lzma2_decode_done env _ _ _ _ _ _ _ hC,
          lzma2_decode_done env _ _ _ _ _ _ _ hR]
        try dsimp only
        simp [List.append_assoc]
      · rw [if_neg hz] at hR hC
        rw [lzma2_decode_next env _ _ _ _ _ _ hC,
          lzma2_decode_next env _ _ _ _ _ _ hR]
        try dsimp only
        have e4 : (b :: (rest ++ b2 :: rest2) : List Nat).drop
              ((b :: rest : List Nat).length +
                min (b2 :: rest2 : List Nat).length
                  (c.compressed_size - (b :: rest : List Nat).length)) =
            (b2 :: rest2 : List Nat).drop
              (min (b2 :: rest2 : List Nat).length
                (c.compressed_size - (b :: rest : List Nat).length)) := by
          rw [← List.cons_append, List.drop_append]
        rw [e4]
        simp [List.append_assoc, Nat.add_assoc]
  · exact Step1Out.noConfusion hstep


/-- No byte-at-a-time phase iteration can return `LZMA_OK`: they either
fall through or return an error or `LZMA_STREAM_END`. -/
theorem step1_header_no_ok (env : Env σ Opt) (c : Coder σ Opt) (d : Dict)
    (b : Nat) (l : List Nat) (c' : Coder σ Opt) (d' : Dict) (n : Nat)
    (hs1 : c.sequence ≠ .lzma) (hs2 : c.sequence ≠ .copy)
    (h : step1 env c d (b :: l) = .done c' d' n .ok) : False := by
  unfold step1 at h
  split at h
  all_goals try dsimp only at h
  all_goals try split at h
  all_goals try split at h
  all_goals try split at h
  all_goals try split at h
  all_goals try split at h
  all_goals
    first
      | exact Step1Out.noConfusion h
      | (injection h with h1 h2 h3 h4
         exact Ret.noConfusion h4)
      | simp_all


/-- Induction core for C1 over the decode loop, bounded by the termination
measure. -/
theorem lzma2_split_aux (env : Env σ Opt)
    (Hle : ∀ s dd r, (env.code s dd r).used ≤ r.length)
    (Hext : ∀ s dd r ys, ((env.code s dd r).ret ≠ .ok ∨
        (env.code s dd r).used < r.length) →
      env.code s dd (r ++ ys) = env.code s dd r)
    (Hsplit : ∀ s dd r ys, (env.code s dd r).ret = .ok →
      (env.code s dd r).used = r.length →
      env.code s dd (r ++ ys) =
        ⟨(env.code (env.code s dd r).st (env.code s dd r).dict ys).st,
         (env.code (env.code s dd r).st (env.code s dd r).dict ys).dict,
         r.length + (env.code (env.code s dd r).st (env.code s dd r).dict ys).used,
         (env.code (env.code s dd r).st (env.code s dd r).dict ys).ret⟩) :
    ∀ N (xs : List Nat) (c : Coder σ Opt) (d : Dict) (ys : List Nat),
      3 * xs.length + seqRank c.sequence < N →
      ((lzma2_decode env c d xs).ret = .ok →
        (lzma2_decode env c d xs).used = xs.length →
        ((lzma2_decode env (lzma2_decode env c d xs).coder
            (lzma2_decode env c d xs).dict ys).ret = .ok ∨
         (lzma2_decode env (lzma2_decode env c d xs).coder
            (lzma2_decode env c d xs).dict ys).ret = .streamEnd) →
        lzma2_decode env c d (xs ++ ys) =
          ⟨(lzma2_decode env (lzma2_decode env c d xs).coder
              (lzma2_decode env c d xs).dict ys).coder,
           (lzma2_decode env (lzma2_decode env c d xs).coder
              (lzma2_decode env c d xs).dict ys).dict,
           xs.length + (lzma2_decode env (lzma2_decode env c d xs).coder
              (lzma2_decode env c d xs).dict ys).used,
           (lzma2_decode env (lzma2_decode env c d xs).coder
              (lzma2_decode env c d xs).dict ys).ret⟩) ∧
      ((lzma2_decode env c d xs).ret = .ok →
        (lzma2_decode env c d xs).used < xs.length →
        lzma2_decode env c d (xs ++ ys) = lzma2_decode env c d xs) ∧
      ((lzma2_decode env c d xs).ret = .streamEnd →
        lzma2_decode env c d (xs ++ ys) = lzma2_decode env c d xs) := by
  intro N
  induction N with
  | zero => intro xs c d ys hN; exact absurd hN (by omega)
  | succ N ih =>
    intro xs c d ys hN
    cases hstep : step1 env c d xs with
    | next c1 d1 n =>
      have hn := step1_next_le env Hle c d xs c1 d1 n hstep
      have hm := step1_next_measure env c d xs c1 d1 n hstep
      have hstep2 := step1_append_next env Hext c d xs ys c1 d1 n hstep
      have hd := lzma2_decode_next env c d xs c1 d1 n hstep
      have hd2 := lzma2_decode_next env c d (xs ++ ys) c1 d1 n hstep2
      rw [List.drop_append_of_le_length hn] at hd2
      obtain ⟨IH1, IH2, IH3⟩ := ih (xs.drop n) c1 d1 ys (by omega)
      rw [hd, hd2]
      try dsimp only
      refine ⟨?_, ?_, ?_⟩
      · intro hret hused hys
        have hused' : (lzma2_decode env c1 d1 (xs.drop n)).used =
            (xs.drop n).length := by
          rw [List.length_drop]
          omega
        rw [IH1 hret hused' hys]
        try dsimp only
        rw [← Nat.add_assoc,
          show n + (xs.drop n).length = xs.length from by
            rw [List.length_drop]; omega]
      · intro hret hused
        have hused' : (lzma2_decode env c1 d1 (xs.drop n)).used <
            (xs.drop n).length := by
          rw [List.length_drop]
          omega
        rw [IH2 hret hused']
      · intro hret
        rw [IH3 hret]
    | done c1 d1 n r =>
      have hd := lzma2_decode_done env c d xs c1 d1 n r hstep
      rw [hd]
      try dsimp only
      refine ⟨?_, ?_, ?_⟩
      · intro hret hused hys
        subst hret
        subst hused
        by_cases hs : c.sequence = .lzma
        · exact lzma2_sync_lzma env Hsplit c d xs ys c1 d1 hs hstep hys
        · cases hxs : xs with
          | nil =>
            subst hxs
            rw [step1_nil env c d hs] at hstep
            injection hstep with h1 h2 h3 h4
            subst h1
            subst h2
            simp
          | cons b rest =>
            subst hxs
            by_cases hc : c.sequence = .copy
            · exact lzma2_sync_copy env c d b rest ys c1 d1 hc hstep
            · exact absurd hstep (fun hh =>
                step1_header_no_ok env c d b rest c1 d1 _ hs hc hh)
      · intro hret hused
        subst hret
        have hst2 := step1_append_done_stable env Hext c d xs ys c1 d1
          n .ok hstep (Or.inr ⟨rfl, hused⟩)
        rw [lzma2_decode_done env c d (xs ++ ys) c1 d1 n .ok hst2]
      · intro hret
        subst hret
        have hst2 := step1_append_done_stable env Hext c d xs ys c1 d1
          n .streamEnd hstep (Or.inl rfl)
        rw [lzma2_decode_done env c d (xs ++ ys) c1 d1 n .streamEnd hst2]


/-- C1: resumability / split invariance of `lzma2_decode`, given that the
inner decoder is itself resumable (`Hle`, `Hext`, `Hsplit` formalise the
adapter contract of spec section 4.3). For any split `xs ++ ys` of an input
stream: if the first call consumed all of `xs` and returned `LZMA_OK` (input
ran out mid-header, mid-chunk or mid-inner-decode) then, as long as the
follow-up call on `ys` does not end in an error (the stream is valid), the
single call on `xs ++ ys` consumes the same bytes, produces the same
dictionary and final coder state, and returns the same code as the two
chained calls; if the first call returned `LZMA_OK` without consuming all of
`xs` (the inner decoder blocked), or returned `LZMA_STREAM_END`, the single
call on `xs ++ ys` returns at exactly the same point with identical state,
so a later call resumes exactly where it left off. -/
theorem lzma2_decode_split_invariant (env : Env σ Opt)
    (Hle : ∀ s dd r, (env.code s dd r).used ≤ r.length)
    (Hext : ∀ s dd r ys, ((env.code s dd r).ret ≠ .ok ∨
        (env.code s dd r).used < r.length) →
      env.code s dd (r ++ ys) = env.code s dd r)
    (Hsplit : ∀ s dd r ys, (env.code s dd r).ret = .ok →
      (env.code s dd r).used = r.length →
      env.code s dd (r ++ ys) =
        ⟨(env.code (env.code s dd r).st (env.code s dd r).dict ys).st,
         (env.code (env.code s dd r).st (env.code s dd r).dict ys).dict,
         r.length +
           (env.code (env.code s dd r).st (env.code s dd r).dict ys).used,
         (env.code (env.code s dd r).st (env.code s dd r).dict ys).ret⟩)
    (xs ys : List Nat) (c : Coder σ Opt) (d : Dict) :
    ∀ first resume : DecodeResult σ Opt,
      first = lzma2_decode env c d xs →
      resume = lzma2_decode env first.coder first.dict ys →
      ((first.ret = .ok → first.used = xs.length →
          (resume.ret = .ok ∨ resume.ret = .streamEnd) →
          lzma2_decode env c d (xs ++ ys) =
            ⟨resume.coder, resume.dict, xs.length + resume.used,
              resume.ret⟩) ∧
       (first.ret = .ok → first.used < xs.length →
          lzma2_decode env c d (xs ++ ys) = first) ∧
       (first.ret = .streamEnd →
          lzma2_decode env c d (xs ++ ys) = first)) := by
  intro first resume h1 h2
  subst h1
  subst h2
  exact lzma2_split_aux env Hle Hext Hsplit (3 * xs.length + 3) xs c d ys
    (by have := seqRank_le c.sequence; omega)

/-- Witness for C1: the spec's worked example `01 00 00 AA` (dictionary
reset, raw chunk of length one) split after two bytes, under the trivial
inner decoder. -/
theorem lzma2_decode_split_invariant_witness :
    (lzma2_decode trivEnv initCoder emptyDict [1, 0]).ret = .ok ∧
    (lzma2_decode trivEnv initCoder emptyDict [1, 0]).used = 2 ∧
    lzma2_decode trivEnv initCoder emptyDict [1, 0, 0, 0xAA] =
      ⟨(lzma2_decode trivEnv
          (lzma2_decode trivEnv initCoder emptyDict [1, 0]).coder
          (lzma2_decode trivEnv initCoder emptyDict [1, 0]).dict
          [0, 0xAA]).coder,
       (lzma2_decode trivEnv
          (lzma2_decode trivEnv initCoder emptyDict [1, 0]).coder
          (lzma2_decode trivEnv initCoder emptyDict [1, 0]).dict
          [0, 0xAA]).dict,
       2 + (lzma2_decode trivEnv
          (lzma2_decode trivEnv initCoder emptyDict [1, 0]).coder
          (lzma2_decode trivEnv initCoder emptyDict [1, 0]).dict
          [0, 0xAA]).used,
       (lzma2_decode trivEnv
          (lzma2_decode trivEnv initCoder emptyDict [1, 0]).coder
          (lzma2_decode trivEnv initCoder emptyDict [1, 0]).dict
          [0, 0xAA]).ret⟩ := by
  refine ⟨by decide, by decide, ?_⟩
  have h := (lzma2_decode_split_invariant trivEnv
    (fun s dd r => Nat.zero_le _)
    (fun s dd r ys hh => rfl)
    (fun s dd r ys hh _ => Ret.noConfusion hh)
    [1, 0] [0, 0xAA] initCoder emptyDict
    (lzma2_decode trivEnv initCoder emptyDict [1, 0])
    (lzma2_decode trivEnv
      (lzma2_decode trivEnv initCoder emptyDict [1, 0]).coder
      (lzma2_decode trivEnv initCoder emptyDict [1, 0]).dict [0, 0xAA])
    rfl rfl).1 (by decide) (by decide) (by decide)
  exact h

end Lzma2
